import Mathlib

/-!
Verification of the radarlfo scraper core (src/web.py) against its specification.

Python strings are modelled as `List Char` (`Str`), restricted to the ASCII
behaviour of `str.strip` / `str.upper` / `str.lower` / `str.isalnum` /
`str.split` / `re.split(r"\s+", ·)` / `re.sub(r"\s+", " ", ·)` and substring
containment (`needle in haystack`).  HTML documents are modelled by the
outcome of the CSS-selector queries that `extract_sold_shipped_from_dp`
performs on them (`Markup`), network responses by `Response`, and one
`session.get` call by `GetResult` (a value, or a raised transport exception).
All functions are direct translations of the corresponding Python functions
in src/web.py, keeping their names.
-/

set_option linter.unusedTactic false
set_option linter.unreachableTactic false
set_option linter.unusedVariables false

abbrev Str := List Char

/-- ASCII whitespace, as matched by Python's `str.strip()` / `\s`:
space, tab, newline, carriage return, vertical tab, form feed. -/
def isSpaceChar (c : Char) : Bool :=
  c = ' ' || c = '\t' || c = '\n' || c = '\r' || c.toNat = 11 || c.toNat = 12

/-- ASCII model of Python's per-character alphanumeric test. -/
def isAlnumCh (c : Char) : Bool :=
  ('0' ≤ c && c ≤ '9') || ('A' ≤ c && c ≤ 'Z') || ('a' ≤ c && c ≤ 'z')

/-- ASCII model of Python's per-character upper-casing. -/
def upChar (c : Char) : Char :=
  match c with
  | 'a' => 'A' | 'b' => 'B' | 'c' => 'C' | 'd' => 'D' | 'e' => 'E' | 'f' => 'F' | 'g' => 'G'
  | 'h' => 'H' | 'i' => 'I' | 'j' => 'J' | 'k' => 'K' | 'l' => 'L' | 'm' => 'M' | 'n' => 'N'
  | 'o' => 'O' | 'p' => 'P' | 'q' => 'Q' | 'r' => 'R' | 's' => 'S' | 't' => 'T' | 'u' => 'U'
  | 'v' => 'V' | 'w' => 'W' | 'x' => 'X' | 'y' => 'Y' | 'z' => 'Z'
  | c => c

/-- ASCII model of Python's per-character lower-casing. -/
def loChar (c : Char) : Char :=
  match c with
  | 'A' => 'a' | 'B' => 'b' | 'C' => 'c' | 'D' => 'd' | 'E' => 'e' | 'F' => 'f' | 'G' => 'g'
  | 'H' => 'h' | 'I' => 'i' | 'J' => 'j' | 'K' => 'k' | 'L' => 'l' | 'M' => 'm' | 'N' => 'n'
  | 'O' => 'o' | 'P' => 'p' | 'Q' => 'q' | 'R' => 'r' | 'S' => 's' | 'T' => 't' | 'U' => 'u'
  | 'V' => 'v' | 'W' => 'w' | 'X' => 'x' | 'Y' => 'y' | 'Z' => 'z'
  | c => c

/-- `s.upper()`. -/
def pyUpper (s : Str) : Str := s.map upChar

/-- `s.lower()`. -/
def pyLower (s : Str) : Str := s.map loChar

/-- Removal of trailing whitespace (the right half of `str.strip()`). -/
def rstripWs : Str → Str
  | [] => []
  | c :: cs =>
    let r := rstripWs cs
    if r = [] ∧ isSpaceChar c then [] else c :: r

/-- `s.strip()`: drop leading whitespace, then trailing whitespace. -/
def pyStrip (s : Str) : Str := rstripWs (s.dropWhile isSpaceChar)

/-- `str.isalnum()`: non-empty and every character alphanumeric. -/
def pyIsAlnum (s : Str) : Bool := !s.isEmpty && s.all isAlnumCh

/-- Does `hay` start with `needle`? -/
def strStartsWith : Str → Str → Bool
  | _, [] => true
  | [], _ :: _ => false
  | a :: as, b :: bs => a = b && strStartsWith as bs

/-- Python's `needle in hay` substring containment. -/
def strContains : Str → Str → Bool
  | hay, needle =>
    match hay with
    | [] => needle.isEmpty
    | c :: t => strStartsWith (c :: t) needle || strContains t needle

/-- `s.split()`: words of `s`, splitting on whitespace runs, dropping empties.
`cur` accumulates the current word in reverse. -/
def wordsGo (cur : Str) : Str → List Str
  | [] => if cur.isEmpty then [] else [cur.reverse]
  | c :: cs =>
    if isSpaceChar c then
      if cur.isEmpty then wordsGo [] cs else cur.reverse :: wordsGo [] cs
    else wordsGo (c :: cur) cs

/-- `s.split()` with no separator argument. -/
def pyWords (s : Str) : List Str := wordsGo [] s

/-- `" ".join(ws)`. -/
def joinWords : List Str → Str
  | [] => []
  | [w] => w
  | w :: ws => w ++ ' ' :: joinWords ws

mutual

/-- `re.sub(r"\s+", " ", s)`: replace each maximal whitespace run by one space. -/
def collapseWs : Str → Str
  | [] => []
  | c :: cs => if isSpaceChar c then ' ' :: skipWsThen cs else c :: collapseWs cs

/-- Helper of `collapseWs`: consume the rest of a whitespace run, then continue. -/
def skipWsThen : Str → Str
  | [] => []
  | c :: cs => if isSpaceChar c then skipWsThen cs else c :: collapseWs cs

end

mutual

/-- `re.split(r"\s+", s)`: split on whitespace runs, keeping boundary empties.
`cur` accumulates the current token in reverse. -/
def splitRunsGo (cur : Str) : Str → List Str
  | [] => [cur.reverse]
  | c :: cs =>
    if isSpaceChar c then cur.reverse :: skipRunThen cs else splitRunsGo (c :: cur) cs

/-- Helper of `splitRunsGo`: consume the rest of a whitespace run. -/
def skipRunThen : Str → List Str
  | [] => [[]]
  | c :: cs => if isSpaceChar c then skipRunThen cs else splitRunsGo [c] cs

end

/-- `re.split(r"\s+", s)`. -/
def splitWsRuns (s : Str) : List Str := splitRunsGo [] s

/-! ### Constants of src/web.py -/

def semOferta : Str := "Sem Oferta".data

def amazonStr : Str := "Amazon".data

def amazonFOStatus : Str := "Amazon FO".data

def lfoStatus : Str := "LFO".data

def REPROCESSAR_LABEL : Str := "Reprocessar".data

def reprocStatus : Str := "REPROCESSAR".data

def AMAZON_RETAIL_HINTS : List Str :=
  ["amazon".data, "amazon.com.br".data,
   "amazon serviços de varejo".data, "amazon servicos de varejo".data]

def MAX_WORKERS : Nat := 6

def SAFEGET_RETRIES_PER_CYCLE : Nat := 2

def MAX_BLOCKED_CYCLES : Nat := 3

/-! ### Helpers of src/web.py -/

/-- `is_valid_asin` (web.py:65-67): strip, then length 10 and alphanumeric. -/
def is_valid_asin (a : Str) : Bool :=
  let a' := pyStrip a
  a'.length = 10 && pyIsAlnum a'

/-- `normalize_spaces` (web.py:70-71): `" ".join(s.split()).strip()`. -/
def normalize_spaces (s : Str) : Str := pyStrip (joinWords (pyWords s))

/-- `is_amazon_name` (web.py:74-78): lower, strip, non-empty, and containing
one of the operator-name hints. -/
def is_amazon_name (name : Str) : Bool :=
  let n := pyStrip (pyLower name)
  if n.isEmpty then false
  else AMAZON_RETAIL_HINTS.any (fun h => strContains n h)

/-- An HTTP response: status code and body text. -/
structure Response where
  status_code : Nat
  text : Str
deriving DecidableEq

def CAPTCHA_MSG : Str := "digite os caracteres que você vê".data

def ROBOT_MSG : Str := "to discuss automated access".data

def blockWordA : Str := "sorry".data

def blockWordB : Str := "robot".data

/-- `detect_soft_block` (web.py:81-94). -/
def detect_soft_block (resp : Option Response) (html : Str) : Bool :=
  match resp with
  | none => true
  | some r =>
    if r.status_code = 429 ∨ r.status_code = 503 then true
    else
      let t := pyLower html
      if strContains t CAPTCHA_MSG then true
      else if strContains t ROBOT_MSG then true
      else if strContains t blockWordA && strContains t blockWordB then true
      else false

/-- Outcome of one `session.get` call inside `safe_get`: either a returned
value (`none` modelling a null response) or a raised transport exception. -/
inductive GetResult where
  | value (resp : Option Response)
  | exn
deriving DecidableEq

/-- The body paired with a possibly-absent response:
`resp.text if resp is not None else ""`. -/
def htmlOf : Option Response → Str
  | some r => r.text
  | none => []

/-- `safe_get`'s loop (web.py:112-136).  `env i` is the outcome of the
`session.get` issued on attempt `i`; `fuel` counts remaining attempts,
`i` the next attempt index, `last` the last observed `(resp, html)`.
Returns the result together with the number of attempts performed. -/
def safe_get_go (env : Nat → GetResult) :
    Nat → Nat → (Option Response × Str) → ((Option Response × Str) × Nat)
  | 0, i, last => (last, i)
  | fuel + 1, i, last =>
    match env i with
    | GetResult.exn => safe_get_go env fuel (i + 1) (none, [])
    | GetResult.value resp =>
      let html := htmlOf resp
      if detect_soft_block resp html = false then ((resp, html), i + 1)
      else safe_get_go env fuel (i + 1) (resp, html)

/-- `safe_get` (web.py:112-136), instrumented with the attempt count. -/
def safe_get_instr (env : Nat → GetResult) (max_retries : Nat) :
    (Option Response × Str) × Nat :=
  safe_get_go env (max_retries + 1) 0 (none, [])

/-- `safe_get` (web.py:112-136): the returned `(resp, html)` pair. -/
def safe_get (env : Nat → GetResult) (max_retries : Nat) : Option Response × Str :=
  (safe_get_instr env max_retries).1

/-- Number of attempts `safe_get` performs. -/
def safe_get_attempts (env : Nat → GetResult) (max_retries : Nat) : Nat :=
  (safe_get_instr env max_retries).2

/-- Does attempt `i` end blocked (a raised exception, or a value the block
detector flags)?  An attempt ends `safe_get`'s loop exactly when this is false. -/
def blockedAtB (env : Nat → GetResult) (i : Nat) : Bool :=
  match env i with
  | GetResult.exn => true
  | GetResult.value resp => detect_soft_block resp (htmlOf resp)

/-- The `(resp, html)` pair attempt `i` contributes (an exception yields
`(none, "")`). -/
def attemptVal (env : Nat → GetResult) (i : Nat) : Option Response × Str :=
  match env i with
  | GetResult.exn => (none, [])
  | GetResult.value resp => (resp, htmlOf resp)

/-! ### The merchant extractor (web.py:139-221)

A parsed page is modelled by the outcomes of the selector queries the
extractor performs: the merchant-info label element's text, the merchant-info
text element (with its preferred anchor text, span text, and whole text,
each as returned by `get_text(" ", strip=True)`), the texts of the fallback
seller-link elements in document order, the whole-page text, and whether a
Prime-badge element is present. -/

/-- The `desktop-merchant-info` text element, as seen by `pick_merchant_text`. -/
structure MerchantRoot where
  anchorText : Option Str
  spanText : Option Str
  rootText : Str

/-- Outcomes of the selector queries of `extract_sold_shipped_from_dp`. -/
structure Markup where
  merchantLabel : Option Str
  merchantText : Option MerchantRoot
  sellerLinks : List Str
  pageText : Str
  primeHint : Bool

/-- `clean` (web.py:148-153). -/
def clean (s : Str) : Str :=
  let s1 := normalize_spaces s
  if s1 = [] then semOferta
  else
    let s2 := pyStrip (collapseWs s1)
    if s2 = [] then semOferta else s2.take 80

/-- `pick_merchant_text` (web.py:155-169): prefer the anchor, then the span,
then the whole element text; a missing element yields the sentinel. -/
def pick_merchant_text : Option MerchantRoot → Str
  | none => semOferta
  | some root =>
    match root.anchorText with
    | some t => clean t
    | none =>
      match root.spanText with
      | some t => clean t
      | none => clean root.rootText

/-- The fallback seller-link scan (web.py:195-205): the first link whose
cleaned text is not the sentinel and has at most 6 words decides. -/
def find_fallback : List Str → Option Str
  | [] => none
  | l :: ls =>
    let name := clean l
    if name ≠ semOferta ∧ (pyWords name).length ≤ 6 then some name else find_fallback ls

/-- Steps 4-5 of the extractor (web.py:207-221): resolve a still-unresolved
shipper from page text / Prime badge, then collapse an all-sentinel pair.
(In the first branch the final web.py:218 guard cannot fire, as the seller
is not the sentinel there, so the pair is returned directly.) -/
def extract_finish (m : Markup) (vendido enviado : Str) : Str × Str :=
  if vendido ≠ semOferta ∧ enviado = semOferta then
    let page_text := pyLower m.pageText
    if strContains page_text ("enviado por amazon".data)
        || strContains page_text ("ships from amazon".data) then (vendido, amazonStr)
    else if m.primeHint then (vendido, amazonStr)
    else (vendido, vendido)
  else if vendido = semOferta ∧ enviado = semOferta then (semOferta, semOferta)
  else (vendido, enviado)

/-- `extract_sold_shipped_from_dp` (web.py:139-221). -/
def extract_sold_shipped_from_dp (m : Markup) : Str × Str :=
  let label_txt :=
    match m.merchantLabel with
    | some t => pyLower (clean t)
    | none => []
  let merchant_txt := pick_merchant_text m.merchantText
  if merchant_txt ≠ semOferta then
    if is_amazon_name merchant_txt then (amazonStr, amazonStr)
    else
      let enviado :=
        if strContains label_txt ("enviado / vendido".data)
            || strContains label_txt ("shipped from and sold by".data) then merchant_txt
        else semOferta
      extract_finish m merchant_txt enviado
  else
    match find_fallback m.sellerLinks with
    | some name =>
      if is_amazon_name name then (amazonStr, amazonStr)
      else extract_finish m name semOferta
    | none => extract_finish m semOferta semOferta

/-- The classification of web.py:266-270: both sentinel means no offer,
both operator names means "Amazon FO", anything else "LFO". -/
def classify (vendido enviado : Str) : Str :=
  if vendido = semOferta ∧ enviado = semOferta then semOferta
  else if is_amazon_name vendido && is_amazon_name enviado then amazonFOStatus
  else lfoStatus

/-! ### The recovery loop (web.py:224-275) -/

/-- `resp.status_code` at a point where `resp` is known non-null. -/
def respStatus : Option Response → Nat
  | some r => r.status_code
  | none => 0

/-- The cycle loop of `scrape_one_asin` (web.py:228-275).  `parse` models
`BeautifulSoup(html, "html.parser")` (selector outcomes of the document),
`env c` is the per-attempt network environment of cycle `c`, `fuel` the
remaining loop iterations, `c` the current cycle index.  Returns the record
`(asin, vendido, enviado, status)` and the number of cycles consumed. -/
def scrape_go (parse : Str → Markup) (env : Nat → Nat → GetResult) (asin : Str) :
    Nat → Nat → ((Str × Str × Str × Str) × Nat)
  | 0, c => ((asin, REPROCESSAR_LABEL, REPROCESSAR_LABEL, reprocStatus), c)
  | fuel + 1, c =>
    let r := safe_get (env c) SAFEGET_RETRIES_PER_CYCLE
    if r.1 = none ∨ r.2 = [] then
      if c < MAX_BLOCKED_CYCLES then scrape_go parse env asin fuel (c + 1)
      else ((asin, REPROCESSAR_LABEL, REPROCESSAR_LABEL, reprocStatus), c + 1)
    else if detect_soft_block r.1 r.2 then
      if c < MAX_BLOCKED_CYCLES then scrape_go parse env asin fuel (c + 1)
      else ((asin, REPROCESSAR_LABEL, REPROCESSAR_LABEL, reprocStatus), c + 1)
    else if respStatus r.1 ≠ 200 then ((asin, semOferta, semOferta, semOferta), c + 1)
    else
      let ve := extract_sold_shipped_from_dp (parse r.2)
      ((asin, ve.1, ve.2, classify ve.1 ve.2), c + 1)

/-- `scrape_one_asin` (web.py:224-275), instrumented with the cycle count. -/
def scrape_one_asin_instr (parse : Str → Markup) (env : Nat → Nat → GetResult)
    (asin : Str) : (Str × Str × Str × Str) × Nat :=
  scrape_go parse env asin (MAX_BLOCKED_CYCLES + 1) 0

/-- `scrape_one_asin` (web.py:224-275): the returned record. -/
def scrape_one_asin (parse : Str → Markup) (env : Nat → Nat → GetResult)
    (asin : Str) : Str × Str × Str × Str :=
  (scrape_one_asin_instr parse env asin).1

/-- Does cycle `c` end in a retry condition (missing response, empty body,
or detected block), web.py:239 and 246? -/
def failCycleB (env : Nat → Nat → GetResult) (c : Nat) : Bool :=
  let r := safe_get (env c) SAFEGET_RETRIES_PER_CYCLE
  r.1 = none || r.2 = [] || detect_soft_block r.1 r.2

/-! ### The concurrency coordinator (web.py:278-285) -/

/-- Python-dict insertion: update the value at an existing key in place,
append a new key at the end. -/
def upsert (d : List (Str × (Str × Str × Str))) (k : Str) (v : Str × Str × Str) :
    List (Str × (Str × Str × Str)) :=
  if k ∈ d.map Prod.fst then d.map (fun p => if p.1 = k then (k, v) else p)
  else d ++ [(k, v)]

/-- `get_offer_info_scrape_parallel` (web.py:278-285).  One task is submitted
per element of `asins`; `order` is the completion order of those tasks (a
permutation of `asins`); `parseF`/`envF` give each identifier its parsing
and network environment.  Results are collected into a dict keyed by the
`asin` field of each task's record. -/
def get_offer_info_scrape_parallel (parseF : Str → Str → Markup)
    (envF : Str → Nat → Nat → GetResult) (order : List Str) :
    List (Str × (Str × Str × Str)) :=
  order.foldl (fun d a =>
    let r := scrape_one_asin (parseF a) (envF a) a
    upsert d r.1 r.2) []

/-! ### The identifier validator (web.py:972-978) -/

/-- The tokenisation of the form input (web.py:975-976): replace commas by
spaces, split on whitespace runs. -/
def tokenize (text : Str) : List Str :=
  splitWsRuns (text.map (fun c => if c = ',' then ' ' else c))

/-- web.py:977: `[a.strip().upper() for a in tokens if a.strip()]`. -/
def asins_raw (text : Str) : List Str :=
  ((tokenize text).filter (fun a => !(pyStrip a).isEmpty)).map (fun a => pyUpper (pyStrip a))

/-- web.py:978: `[a for a in asins_raw if is_valid_asin(a)]`. -/
def valid_asins (text : Str) : List Str :=
  (asins_raw text).filter is_valid_asin

/-! ### Spec-side definitions (written from the specification's words, for
the refinement-style comparisons) -/

/-- Modelled from the spec (claim C3): a token participates iff, after
trimming, it is exactly 10 alphanumeric characters. -/
def specTokenGood (a : Str) : Bool :=
  (pyStrip a).length = 10 && (pyStrip a).all isAlnumCh

/-- Modelled from the spec (claim C3): normalization is trimming followed by
upper-casing. -/
def specNormalize (a : Str) : Str := pyUpper (pyStrip a)

/-- Modelled from the spec (claim C9): a merchant-info value is either the
"no offer" sentinel or a non-empty whitespace-normalized string of at most 80
characters.  "Whitespace-normalized" is read as: every whitespace character
is a plain space, no two spaces are adjacent, and the string does not begin
with a space (the 80-character truncation is applied after normalization, so
a cut may fall directly after an interior space). -/
def noDoubleSpaceB : Str → Bool
  | a :: b :: t => !(a = ' ' && b = ' ') && noDoubleSpaceB (b :: t)
  | _ => true

def spacesOkB (s : Str) : Bool := s.all (fun c => !isSpaceChar c || c = ' ')

def headNotSpace : Str → Bool
  | [] => true
  | c :: _ => !isSpaceChar c

def wsNormB (s : Str) : Bool := spacesOkB s && noDoubleSpaceB s && headNotSpace s

def wsOk (x : Str) : Prop :=
  x = semOferta ∨ (x ≠ [] ∧ x.length ≤ 80 ∧ wsNormB x = true)

/-! ### Concrete fixtures used by the witnesses and the counterexample -/

/-- Concrete markup whose merchant block resolves to "Amazon". -/
def mAmazonBlock : Markup :=
  { merchantLabel := some "Enviado / Vendido".data,
    merchantText := some { anchorText := some "Amazon".data, spanText := none, rootText := [] },
    sellerLinks := [], pageText := [], primeHint := false }

/-- Network environment for the C4 witness: a clean 404 on the first cycle. -/
def env404 : Nat → Nat → GetResult :=
  fun _ _ => GetResult.value (some { status_code := 404, text := "not found".data })

/-- Trivial parse environment for the C8 witness and counterexample. -/
def cexMarkupF : Str → Str → Markup := fun _ _ => Markup.mk none none [] [] false

/-- All-raising network environment for the C8 witness and counterexample. -/
def cexEnvF : Str → Nat → Nat → GetResult := fun _ _ _ => GetResult.exn

def asinA : Str := "B000000000".data

def asinB : Str := "B000000001".data

/-- Is the first character a plain space? -/
def headIsSpace : Str → Bool
  | [] => false
  | c :: _ => c = ' '

/-! ### Theorems -/

/-- Claim C1: the classification status of web.py:266-270 is a pure function
of the (seller, shipper) pair (`classify` takes nothing else): a pair of "Sem
Oferta" sentinels is classified "Sem Oferta" (NoOffer), otherwise a pair in
which both names match an operator-name variant is "Amazon FO"
(OperatorFulfilled), and any other pair is "LFO" (ThirdPartyOffer). -/
theorem claim_C1 (v e : Str) :
    (v = semOferta ∧ e = semOferta → classify v e = semOferta) ∧
    (¬(v = semOferta ∧ e = semOferta) → is_amazon_name v = true → is_amazon_name e = true →
      classify v e = amazonFOStatus) ∧
    (¬(v = semOferta ∧ e = semOferta) → ¬(is_amazon_name v = true ∧ is_amazon_name e = true) →
      classify v e = lfoStatus) := by
  unfold classify
  refine ⟨fun h => ?_, fun h hv he => ?_, fun h hab => ?_⟩
  · rw [if_pos h]
  · rw [if_neg h, if_pos (by simp [hv, he])]
  · rw [if_neg h, if_neg (fun hc => hab (by simpa using hc))]

/-- Witness for C1 at a concrete third-party pair. -/
theorem claim_C1_witness : classify "Loja XYZ".data "Loja XYZ".data = lfoStatus :=
  (claim_C1 "Loja XYZ".data "Loja XYZ".data).2.2 (by decide) (by decide)

/-- Claim C7: `detect_soft_block` reports blocked exactly when the response
is absent, the status is 429 or 503, or the lower-cased body contains the
CAPTCHA prompt, the automated-access notice, or both "sorry" and "robot"
(case-insensitivity is the lower-casing of the body; the patterns are
already lower case). -/
theorem claim_C7 (resp : Option Response) (html : Str) :
    detect_soft_block resp html = true ↔
      resp = none
      ∨ (∃ r, resp = some r ∧ (r.status_code = 429 ∨ r.status_code = 503))
      ∨ strContains (pyLower html) CAPTCHA_MSG = true
      ∨ strContains (pyLower html) ROBOT_MSG = true
      ∨ (strContains (pyLower html) blockWordA = true
          ∧ strContains (pyLower html) blockWordB = true) := by
  cases resp with
  | none => simp [detect_soft_block]
  | some r =>
    show (if r.status_code = 429 ∨ r.status_code = 503 then true
      else
        let t := pyLower html
        if strContains t CAPTCHA_MSG then true
        else if strContains t ROBOT_MSG then true
        else if strContains t blockWordA && strContains t blockWordB then true
        else false) = true ↔ _
    split_ifs <;> simp_all

/-- Claim C5: whenever the merchant-info block's resolved name matches an
operator-name variant, extraction short-circuits to seller = shipper =
"Amazon" regardless of the shipping-label text (the label is not consulted),
and the classification of that pair is "Amazon FO". -/
theorem claim_C5 (m : Markup)
    (h : is_amazon_name (pick_merchant_text m.merchantText) = true) :
    extract_sold_shipped_from_dp m = (amazonStr, amazonStr) ∧
      classify amazonStr amazonStr = amazonFOStatus := by
  have hne : pick_merchant_text m.merchantText ≠ semOferta := by
    intro he
    rw [he] at h
    exact absurd h (by decide)
  refine ⟨?_, by decide⟩
  unfold extract_sold_shipped_from_dp
  simp only [if_pos hne, if_pos h]


/-- Witness for C5 at `mAmazonBlock`. -/
theorem claim_C5_witness :
    extract_sold_shipped_from_dp mAmazonBlock = (amazonStr, amazonStr) ∧
      classify amazonStr amazonStr = amazonFOStatus :=
  claim_C5 mAmazonBlock (by decide)

/-- If attempt `i` is blocked, `safe_get_go` records it as the last
observation and moves to the next attempt. -/
theorem safe_get_go_step_blocked (env : Nat → GetResult) (fuel i : Nat)
    (last : Option Response × Str) (hb : blockedAtB env i = true) :
    safe_get_go env (fuel + 1) i last = safe_get_go env fuel (i + 1) (attemptVal env i) := by
  unfold blockedAtB at hb
  cases henv : env i with
  | exn => simp [safe_get_go, attemptVal, henv]
  | value resp =>
    rw [henv] at hb
    have hb' : detect_soft_block resp (htmlOf resp) = true := hb
    simp [safe_get_go, attemptVal, henv, hb']

/-- If attempt `i` is not blocked, `safe_get_go` returns it immediately. -/
theorem safe_get_go_step_free (env : Nat → GetResult) (fuel i : Nat)
    (last : Option Response × Str) (hb : blockedAtB env i = false) :
    safe_get_go env (fuel + 1) i last = (attemptVal env i, i + 1) := by
  unfold blockedAtB at hb
  cases henv : env i with
  | exn =>
    rw [henv] at hb
    exact absurd hb (by simp)
  | value resp =>
    rw [henv] at hb
    have hb' : detect_soft_block resp (htmlOf resp) = false := hb
    simp [safe_get_go, henv, hb', attemptVal]

/-- The attempt counter of `safe_get_go` never exceeds the fuel. -/
theorem safe_get_go_count_le (env : Nat → GetResult) :
    ∀ fuel i last, (safe_get_go env fuel i last).2 ≤ i + fuel := by
  intro fuel
  induction fuel with
  | zero => intro i last; simp [safe_get_go]
  | succ n ih =>
    intro i last
    by_cases hb : blockedAtB env i = true
    · rw [safe_get_go_step_blocked env n i last hb]
      exact le_trans (ih (i + 1) _) (by omega)
    · rw [safe_get_go_step_free env n i last (by simpa using hb)]
      simp

/-- `safe_get_go` returns the first non-blocked attempt, with its count. -/
theorem safe_get_go_first (env : Nat → GetResult) :
    ∀ fuel i last j, i ≤ j → j < i + fuel →
      (∀ k, i ≤ k → k < j → blockedAtB env k = true) → blockedAtB env j = false →
      safe_get_go env fuel i last = (attemptVal env j, j + 1) := by
  intro fuel
  induction fuel with
  | zero =>
    intro i last j h1 h2 h3 h4
    omega
  | succ n ih =>
    intro i last j h1 h2 hblocked hj
    rcases Nat.eq_or_lt_of_le h1 with heq | hlt
    · subst heq
      exact safe_get_go_step_free env n i last hj
    · rw [safe_get_go_step_blocked env n i last (hblocked i (le_refl i) hlt)]
      exact ih (i + 1) _ j hlt (by omega) (fun k hk1 hk2 => hblocked k (by omega) hk2) hj

/-- When every attempt in the window is blocked, `safe_get_go` returns the
last attempt's observed value and consumes all the fuel. -/
theorem safe_get_go_exhaust (env : Nat → GetResult) :
    ∀ fuel i last, 1 ≤ fuel →
      (∀ k, i ≤ k → k < i + fuel → blockedAtB env k = true) →
      safe_get_go env fuel i last = (attemptVal env (i + fuel - 1), i + fuel) := by
  intro fuel
  induction fuel with
  | zero => intro i last h; omega
  | succ n ih =>
    intro i last _ hblocked
    have hbi : blockedAtB env i = true := hblocked i (le_refl i) (by omega)
    rw [safe_get_go_step_blocked env n i last hbi]
    cases n with
    | zero => simp [safe_get_go]
    | succ m =>
      rw [ih (i + 1) _ (by omega) (fun k hk1 hk2 => hblocked k (by omega) (by omega))]
      have h1 : i + 1 + (m + 1) - 1 = i + (m + 1 + 1) - 1 := by omega
      have h2 : i + 1 + (m + 1) = i + (m + 1 + 1) := by omega
      rw [h1, h2]

/-- Claim C6: `safe_get` performs at most `max_retries + 1` attempts; it
returns the first attempt the block detector passes, immediately (having
performed exactly that attempt's count); when every attempt is blocked (or
raised), it returns the last observed result; transport failures are data
(`GetResult.exn` becomes `(none, "")`), never an uncaught fault, as the
model is a total function. -/
theorem claim_C6 (env : Nat → GetResult) (mr : Nat) :
    safe_get_attempts env mr ≤ mr + 1 ∧
    (∀ i, i ≤ mr → (∀ k, k < i → blockedAtB env k = true) → blockedAtB env i = false →
      safe_get env mr = attemptVal env i ∧ safe_get_attempts env mr = i + 1) ∧
    ((∀ k, k ≤ mr → blockedAtB env k = true) → safe_get env mr = attemptVal env mr) := by
  refine ⟨?_, ?_, ?_⟩
  · have := safe_get_go_count_le env (mr + 1) 0 (none, [])
    simpa [safe_get_attempts, safe_get_instr] using this
  · intro i hi hprev hni
    have := safe_get_go_first env (mr + 1) 0 (none, []) i (by omega) (by omega)
      (fun k _ hk2 => hprev k hk2) hni
    constructor
    · simp [safe_get, safe_get_instr, this]
    · simp [safe_get_attempts, safe_get_instr, this]
  · intro hall
    have := safe_get_go_exhaust env (mr + 1) 0 (none, []) (by omega)
      (fun k _ hk2 => hall k (by omega))
    simp only [safe_get, safe_get_instr, this]
    congr 1
    omega

/-- Witness for C6: with every attempt raising, `safe_get` returns the last
observed `(none, "")`. -/
theorem claim_C6_witness :
    safe_get (fun _ => GetResult.exn) 1 = attemptVal (fun _ => GetResult.exn) 1 :=
  (claim_C6 (fun _ => GetResult.exn) 1).2.2 (by decide)

/-- A failing cycle below the cycle limit makes the loop continue with the
next cycle. -/
theorem scrape_go_step (parse : Str → Markup) (env : Nat → Nat → GetResult) (asin : Str)
    (fuel c : Nat) (hfail : failCycleB env c = true) (hlt : c < MAX_BLOCKED_CYCLES) :
    scrape_go parse env asin (fuel + 1) c = scrape_go parse env asin fuel (c + 1) := by
  unfold failCycleB at hfail
  by_cases h1 : (safe_get (env c) SAFEGET_RETRIES_PER_CYCLE).1 = none
      ∨ (safe_get (env c) SAFEGET_RETRIES_PER_CYCLE).2 = []
  · simp [scrape_go, h1, hlt]
  · have hfail' : (safe_get (env c) SAFEGET_RETRIES_PER_CYCLE).1 = none
        ∨ (safe_get (env c) SAFEGET_RETRIES_PER_CYCLE).2 = []
        ∨ detect_soft_block (safe_get (env c) SAFEGET_RETRIES_PER_CYCLE).1
            (safe_get (env c) SAFEGET_RETRIES_PER_CYCLE).2 = true := by
      have h0 := hfail
      simp at h0
      tauto
    have hdet : detect_soft_block (safe_get (env c) SAFEGET_RETRIES_PER_CYCLE).1
        (safe_get (env c) SAFEGET_RETRIES_PER_CYCLE).2 = true := by
      rcases hfail' with h | h | h
      · exact absurd (Or.inl h) h1
      · exact absurd (Or.inr h) h1
      · exact h
    simp [scrape_go, h1, hdet, hlt]

/-- A failing cycle at the cycle limit terminates with the reprocessing
record. -/
theorem scrape_go_last (parse : Str → Markup) (env : Nat → Nat → GetResult) (asin : Str)
    (fuel : Nat) (hfail : failCycleB env MAX_BLOCKED_CYCLES = true) :
    scrape_go parse env asin (fuel + 1) MAX_BLOCKED_CYCLES
      = ((asin, REPROCESSAR_LABEL, REPROCESSAR_LABEL, reprocStatus),
          MAX_BLOCKED_CYCLES + 1) := by
  unfold failCycleB at hfail
  by_cases h1 : (safe_get (env MAX_BLOCKED_CYCLES) SAFEGET_RETRIES_PER_CYCLE).1 = none
      ∨ (safe_get (env MAX_BLOCKED_CYCLES) SAFEGET_RETRIES_PER_CYCLE).2 = []
  · simp [scrape_go, h1]
  · have hfail' : (safe_get (env MAX_BLOCKED_CYCLES) SAFEGET_RETRIES_PER_CYCLE).1 = none
        ∨ (safe_get (env MAX_BLOCKED_CYCLES) SAFEGET_RETRIES_PER_CYCLE).2 = []
        ∨ detect_soft_block (safe_get (env MAX_BLOCKED_CYCLES) SAFEGET_RETRIES_PER_CYCLE).1
            (safe_get (env MAX_BLOCKED_CYCLES) SAFEGET_RETRIES_PER_CYCLE).2 = true := by
      have h0 := hfail
      simp at h0
      tauto
    have hdet : detect_soft_block (safe_get (env MAX_BLOCKED_CYCLES) SAFEGET_RETRIES_PER_CYCLE).1
        (safe_get (env MAX_BLOCKED_CYCLES) SAFEGET_RETRIES_PER_CYCLE).2 = true := by
      rcases hfail' with h | h | h
      · exact absurd (Or.inl h) h1
      · exact absurd (Or.inr h) h1
      · exact h
    simp [scrape_go, h1, hdet]

/-- When every cycle before `c` fails, the loop reaches cycle `c` with the
matching remaining fuel. -/
theorem scrape_go_advance (parse : Str → Markup) (env : Nat → Nat → GetResult) (asin : Str) :
    ∀ c, c ≤ MAX_BLOCKED_CYCLES → (∀ j, j < c → failCycleB env j = true) →
      scrape_one_asin_instr parse env asin
        = scrape_go parse env asin (MAX_BLOCKED_CYCLES + 1 - c) c := by
  intro c
  induction c with
  | zero => intro _ _; rfl
  | succ k ih =>
    intro hc hfail
    rw [ih (by omega) (fun j hj => hfail j (by omega))]
    have hsplit : MAX_BLOCKED_CYCLES + 1 - k = (MAX_BLOCKED_CYCLES + 1 - (k + 1)) + 1 := by
      omega
    rw [hsplit]
    exact scrape_go_step parse env asin _ k (hfail k (by omega)) (by omega)

/-- Claim C2: if every recovery cycle (index 0 through the cycle limit,
inclusive) ends in a missing response, an empty body, or a detected block,
`scrape_one_asin` returns the record with seller and shipper both the
reprocessing sentinel and status "REPROCESSAR" — which is distinct from the
"Sem Oferta" (NoOffer) sentinel. -/
theorem claim_C2 (parse : Str → Markup) (env : Nat → Nat → GetResult) (asin : Str)
    (h : ∀ c, c ≤ MAX_BLOCKED_CYCLES → failCycleB env c = true) :
    scrape_one_asin parse env asin
      = (asin, REPROCESSAR_LABEL, REPROCESSAR_LABEL, reprocStatus) ∧
    reprocStatus ≠ semOferta := by
  refine ⟨?_, by decide⟩
  unfold scrape_one_asin
  rw [scrape_go_advance parse env asin MAX_BLOCKED_CYCLES (le_refl _)
    (fun j hj => h j (by omega))]
  have h1 : MAX_BLOCKED_CYCLES + 1 - MAX_BLOCKED_CYCLES = 0 + 1 := rfl
  rw [h1, scrape_go_last parse env asin 0 (h MAX_BLOCKED_CYCLES (le_refl _))]

/-- Witness for C2: every cycle raises, so the record is the reprocessing
one. -/
theorem claim_C2_witness :
    scrape_one_asin (fun _ => Markup.mk none none [] [] false) (fun _ _ => GetResult.exn)
        ("B000000000".data)
      = ("B000000000".data, REPROCESSAR_LABEL, REPROCESSAR_LABEL, reprocStatus) ∧
    reprocStatus ≠ semOferta :=
  claim_C2 (fun _ => Markup.mk none none [] [] false) (fun _ _ => GetResult.exn)
    ("B000000000".data) (by decide)

/-- Claim C4: when the loop reaches cycle `c` (all earlier cycles failed) and
that cycle's fetch yields a usable result — a present response, a non-empty
body, no detected block — whose status is not 200, `scrape_one_asin`
terminates at once with the "Sem Oferta" record, having consumed only the
`c + 1` cycles already spent (no additional cycles, no further retries). -/
theorem claim_C4 (parse : Str → Markup) (env : Nat → Nat → GetResult) (asin : Str) (c : Nat)
    (hc : c ≤ MAX_BLOCKED_CYCLES)
    (hprev : ∀ j, j < c → failCycleB env j = true)
    (hresp : (safe_get (env c) SAFEGET_RETRIES_PER_CYCLE).1 ≠ none)
    (hhtml : (safe_get (env c) SAFEGET_RETRIES_PER_CYCLE).2 ≠ [])
    (hnb : detect_soft_block (safe_get (env c) SAFEGET_RETRIES_PER_CYCLE).1
        (safe_get (env c) SAFEGET_RETRIES_PER_CYCLE).2 = false)
    (hstatus : respStatus (safe_get (env c) SAFEGET_RETRIES_PER_CYCLE).1 ≠ 200) :
    scrape_one_asin_instr parse env asin = ((asin, semOferta, semOferta, semOferta), c + 1) := by
  rw [scrape_go_advance parse env asin c hc hprev]
  have hsplit : MAX_BLOCKED_CYCLES + 1 - c = (MAX_BLOCKED_CYCLES - c) + 1 := by omega
  rw [hsplit]
  have h1 : ¬((safe_get (env c) SAFEGET_RETRIES_PER_CYCLE).1 = none
      ∨ (safe_get (env c) SAFEGET_RETRIES_PER_CYCLE).2 = []) := by
    rintro (h | h)
    · exact hresp h
    · exact hhtml h
  simp [scrape_go, h1, hnb, hstatus]


/-- Witness for C4: a usable 404 on cycle 0 gives the "Sem Oferta" record in
one cycle. -/
theorem claim_C4_witness :
    scrape_one_asin_instr (fun _ => Markup.mk none none [] [] false) env404
        ("B000000000".data)
      = (("B000000000".data, semOferta, semOferta, semOferta), 0 + 1) :=
  claim_C4 (fun _ => Markup.mk none none [] [] false) env404 ("B000000000".data) 0
    (by decide) (fun j hj => absurd hj (by omega)) (by decide) (by decide) (by decide)
    (by decide)

/-- A name accepted by the fallback seller-link scan is never the sentinel. -/
theorem find_fallback_ne : ∀ (ls : List Str) (name : Str),
    find_fallback ls = some name → name ≠ semOferta := by
  intro ls
  induction ls with
  | nil => intro name h; simp [find_fallback] at h
  | cons l ls ih =>
    intro name h
    simp only [find_fallback] at h
    split_ifs at h with hc
    · have : clean l = name := by simpa using h
      exact this ▸ hc.1
    · exact ih name h

/-- When the seller is resolved, `extract_finish` keeps it and always
resolves the shipper to a non-sentinel value. -/
theorem extract_finish_of_ne (m : Markup) (v e : Str) (hv : v ≠ semOferta) :
    (extract_finish m v e).1 = v ∧ (extract_finish m v e).2 ≠ semOferta := by
  simp only [extract_finish]
  split_ifs with h1 hs hp h2
  · exact ⟨rfl, (by decide : amazonStr ≠ semOferta)⟩
  · exact ⟨rfl, (by decide : amazonStr ≠ semOferta)⟩
  · exact ⟨rfl, hv⟩
  · exact absurd h2.1 hv
  · exact ⟨rfl, fun he => h1 ⟨hv, he⟩⟩

/-- `extract_finish` returns a sentinel seller exactly with a sentinel
shipper, provided a resolved shipper comes with a resolved seller. -/
theorem extract_finish_iff (m : Markup) (v e : Str) (he : e ≠ semOferta → v ≠ semOferta) :
    ((extract_finish m v e).1 = semOferta ↔ (extract_finish m v e).2 = semOferta) := by
  by_cases hv : v = semOferta
  · have hee : e = semOferta := by
      by_contra hne
      exact (he hne) hv
    have hpair : extract_finish m semOferta semOferta = (semOferta, semOferta) := by
      simp [extract_finish]
    rw [hv, hee, hpair]
  · have h1 := extract_finish_of_ne m v e hv
    rw [h1.1]
    exact iff_of_false hv h1.2

/-- Claim C10: the extractor's seller is the "no offer" sentinel exactly when
its shipper is — it never resolves one side of the pair only, which makes
the classifier's three-way case split over the pair exhaustive. -/
theorem claim_C10 (m : Markup) :
    ((extract_sold_shipped_from_dp m).1 = semOferta
      ↔ (extract_sold_shipped_from_dp m).2 = semOferta) := by
  simp only [extract_sold_shipped_from_dp]
  by_cases h1 : pick_merchant_text m.merchantText ≠ semOferta
  · rw [if_pos h1]
    by_cases h2 : is_amazon_name (pick_merchant_text m.merchantText)
    · rw [if_pos h2]
    · rw [if_neg h2]
      exact extract_finish_iff m _ _ (fun _ => h1)
  · rw [if_neg h1]
    cases hf : find_fallback m.sellerLinks with
    | none => exact extract_finish_iff m _ _ (fun hne => absurd rfl hne)
    | some name =>
      show (if is_amazon_name name = true then (amazonStr, amazonStr)
          else extract_finish m name semOferta).1 = semOferta
        ↔ (if is_amazon_name name = true then (amazonStr, amazonStr)
          else extract_finish m name semOferta).2 = semOferta
      by_cases h2 : is_amazon_name name
      · rw [if_pos h2]
      · rw [if_neg h2]
        exact extract_finish_iff m _ _ (fun _ => find_fallback_ne m.sellerLinks name hf)

/-- Upper-casing preserves whitespace-ness (ASCII). -/
theorem upChar_space (c : Char) : isSpaceChar (upChar c) = isSpaceChar c := by
  unfold upChar
  split <;> first | rfl | (subst_vars; decide)

/-- Upper-casing preserves alphanumeric-ness (ASCII). -/
theorem upChar_alnum (c : Char) : isAlnumCh (upChar c) = isAlnumCh c := by
  unfold upChar
  split <;> first | rfl | (subst_vars; decide)

/-- `rstripWs` commutes with upper-casing. -/
theorem rstripWs_map_upChar (l : Str) :
    rstripWs (List.map upChar l) = List.map upChar (rstripWs l) := by
  induction l with
  | nil => rfl
  | cons c cs ih =>
    simp only [List.map_cons, rstripWs]
    rw [ih]
    simp only [List.map_eq_nil_iff, upChar_space]
    split_ifs with hcond
    · simp
    · simp

/-- `pyStrip` commutes with `pyUpper`. -/
theorem pyStrip_upper (s : Str) : pyStrip (pyUpper s) = pyUpper (pyStrip s) := by
  unfold pyStrip pyUpper
  rw [List.dropWhile_map]
  have h : (isSpaceChar ∘ upChar) = isSpaceChar := funext upChar_space
  rw [h, rstripWs_map_upChar]

/-- Dropping a satisfied-prefix twice is the same as once. -/
theorem dropWhile_self (p : Char → Bool) (l : Str) :
    List.dropWhile p (List.dropWhile p l) = List.dropWhile p l := by
  induction l with
  | nil => rfl
  | cons c cs ih =>
    by_cases hc : p c = true
    · rw [List.dropWhile_cons_of_pos hc]
      exact ih
    · rw [List.dropWhile_cons_of_neg (by simp [hc]), List.dropWhile_cons_of_neg (by simp [hc])]

/-- The head surviving `dropWhile` fails the predicate. -/
theorem dropWhile_head_false (p : Char → Bool) (c : Char) (cs : Str)
    (h : List.dropWhile p (c :: cs) = c :: cs) : p c = false := by
  by_cases hp : p c = true
  · rw [List.dropWhile_cons_of_pos hp] at h
    have hlen := (List.dropWhile_sublist (l := cs) p).length_le
    rw [h] at hlen
    simp at hlen
  · simp at hp
    exact hp

/-- `rstripWs` of a cons is empty or keeps the head. -/
theorem rstripWs_cons_cases (c : Char) (cs : Str) :
    rstripWs (c :: cs) = [] ∨ rstripWs (c :: cs) = c :: rstripWs cs := by
  simp only [rstripWs]
  split_ifs with h
  · exact Or.inl rfl
  · exact Or.inr rfl

/-- `rstripWs` is idempotent. -/
theorem rstripWs_idem (l : Str) : rstripWs (rstripWs l) = rstripWs l := by
  induction l with
  | nil => rfl
  | cons c cs ih =>
    simp only [rstripWs]
    split_ifs with h
    · rfl
    · simp only [rstripWs, ih]
      rw [if_neg h]

/-- `rstripWs` does not create a leading-whitespace prefix. -/
theorem dropWhile_rstripWs (l : Str) (h : List.dropWhile isSpaceChar l = l) :
    List.dropWhile isSpaceChar (rstripWs l) = rstripWs l := by
  cases l with
  | nil => rfl
  | cons c cs =>
    have hc : isSpaceChar c = false := dropWhile_head_false isSpaceChar c cs h
    rcases rstripWs_cons_cases c cs with h2 | h2 <;> rw [h2]
    · rfl
    · rw [List.dropWhile_cons_of_neg (by simp [hc])]

/-- `pyStrip` is idempotent. -/
theorem pyStrip_idem (s : Str) : pyStrip (pyStrip s) = pyStrip s := by
  unfold pyStrip
  rw [dropWhile_rstripWs (List.dropWhile isSpaceChar s) (dropWhile_self isSpaceChar s),
    rstripWs_idem]

/-- Upper-casing preserves the alphanumeric test of every character. -/
theorem pyUpper_all_alnum (s : Str) : (pyUpper s).all isAlnumCh = s.all isAlnumCh := by
  unfold pyUpper
  rw [List.all_map]
  have h : (isAlnumCh ∘ upChar) = isAlnumCh := funext upChar_alnum
  rw [h]

/-- The code's token test (non-blank, and valid after strip-and-upper-case)
agrees with the spec's (exactly 10 alphanumeric characters after trimming). -/
theorem token_equiv (a : Str) :
    (is_valid_asin (pyUpper (pyStrip a)) && !(pyStrip a).isEmpty) = specTokenGood a := by
  have hidem : pyStrip (pyStrip a) = pyStrip a := pyStrip_idem a
  unfold is_valid_asin specTokenGood pyIsAlnum
  rw [pyStrip_upper, hidem]
  cases ht : pyStrip a with
  | nil => simp [pyUpper]
  | cons c cs =>
    simp only [pyUpper, List.map_cons, List.isEmpty_cons, Bool.not_false, Bool.and_true]
    have hall : (upChar c :: List.map upChar cs).all isAlnumCh = (c :: cs).all isAlnumCh := by
      simpa [pyUpper] using pyUpper_all_alnum (c :: cs)
    have hlen : (upChar c :: List.map upChar cs).length = (c :: cs).length := by simp
    rw [hall]
    simp [hlen]

/-- Claim C3: a raw token is included in processing exactly when, after
trimming, it is exactly 10 alphanumeric characters; the included tokens are
normalized by trimming and upper-casing, the rest are silently dropped, and
every produced identifier itself satisfies the validity predicate (so the
output reads as a set of such normalized strings). -/
theorem claim_C3 (text : Str) :
    valid_asins text = ((tokenize text).filter specTokenGood).map specNormalize
    ∧ ∀ x ∈ valid_asins text, specTokenGood x = true := by
  have hmain : valid_asins text
      = ((tokenize text).filter specTokenGood).map specNormalize := by
    unfold valid_asins asins_raw specNormalize
    rw [List.filter_map, List.filter_filter]
    have hpred : (fun a => (is_valid_asin ∘ fun a => pyUpper (pyStrip a)) a
        && !(pyStrip a).isEmpty) = specTokenGood := by
      funext a
      exact token_equiv a
    rw [hpred]
  refine ⟨hmain, ?_⟩
  intro x hx
  rw [hmain] at hx
  rcases List.mem_map.mp hx with ⟨a, ha, rfl⟩
  have hgood : specTokenGood a = true := (List.mem_filter.mp ha).2
  unfold specTokenGood specNormalize at *
  rw [pyStrip_upper, pyStrip_idem]
  have hlen : (pyUpper (pyStrip a)).length = (pyStrip a).length := List.length_map _ _
  rw [hlen, pyUpper_all_alnum]
  exact hgood

/-- Witness for C3: the produced identifier of a concrete input satisfies
the validity predicate. -/
theorem claim_C3_witness : specTokenGood ("B07XYZ1234".data) = true :=
  (claim_C3 ("b07xyz1234, junk".data)).2 ("B07XYZ1234".data) (by decide)

/-- `scrape_go` always reports the queried identifier in the record. -/
theorem scrape_go_fst (parse : Str → Markup) (env : Nat → Nat → GetResult) (asin : Str) :
    ∀ fuel c, ((scrape_go parse env asin fuel c).1).1 = asin := by
  intro fuel
  induction fuel with
  | zero => intro c; rfl
  | succ n ih =>
    intro c
    simp only [scrape_go]
    split_ifs <;> first | rfl | apply ih

/-- `scrape_one_asin` keys its record by the queried identifier. -/
theorem scrape_one_asin_fst (parse : Str → Markup) (env : Nat → Nat → GetResult)
    (asin : Str) : (scrape_one_asin parse env asin).1 = asin :=
  scrape_go_fst parse env asin (MAX_BLOCKED_CYCLES + 1) 0

/-- Key-set effect of a Python-dict insertion. -/
theorem upsert_keys_mem (d : List (Str × (Str × Str × Str))) (k : Str)
    (v : Str × Str × Str) (b : Str) :
    (b ∈ (upsert d k v).map Prod.fst) ↔ (b ∈ d.map Prod.fst ∨ b = k) := by
  unfold upsert
  split_ifs with hmem
  · have hkeys : (d.map (fun p => if p.1 = k then (k, v) else p)).map Prod.fst
        = d.map Prod.fst := by
      rw [List.map_map]
      apply List.map_congr_left
      intro p hp
      by_cases hpk : p.1 = k
      · simp [Function.comp, hpk]
      · simp [Function.comp, hpk]
    rw [hkeys]
    constructor
    · exact Or.inl
    · rintro (hb | rfl)
      · exact hb
      · exact hmem
  · simp

/-- A Python-dict insertion preserves distinctness of keys. -/
theorem upsert_keys_nodup (d : List (Str × (Str × Str × Str))) (k : Str)
    (v : Str × Str × Str) (h : (d.map Prod.fst).Nodup) :
    ((upsert d k v).map Prod.fst).Nodup := by
  unfold upsert
  split_ifs with hmem
  · have hkeys : (d.map (fun p => if p.1 = k then (k, v) else p)).map Prod.fst
        = d.map Prod.fst := by
      rw [List.map_map]
      apply List.map_congr_left
      intro p hp
      by_cases hpk : p.1 = k
      · simp [Function.comp, hpk]
      · simp [Function.comp, hpk]
    rw [hkeys]
    exact h
  · rw [List.map_append]
    simp [List.nodup_append, h, hmem]

/-- Membership in the keys of the collected dict: exactly the initial keys
plus the processed identifiers. -/
theorem foldl_upsert_mem (val : Str → Str × Str × Str) :
    ∀ (order : List Str) (d : List (Str × (Str × Str × Str))) (b : Str),
      (b ∈ ((order.foldl (fun d a => upsert d a (val a)) d).map Prod.fst))
        ↔ (b ∈ d.map Prod.fst ∨ b ∈ order) := by
  intro order
  induction order with
  | nil => intro d b; simp
  | cons a order ih =>
    intro d b
    simp only [List.foldl_cons]
    rw [ih, upsert_keys_mem]
    simp only [List.mem_cons]
    tauto

/-- The collected dict never has duplicate keys. -/
theorem foldl_upsert_nodup (val : Str → Str × Str × Str) :
    ∀ (order : List Str) (d : List (Str × (Str × Str × Str))),
      (d.map Prod.fst).Nodup →
      ((order.foldl (fun d a => upsert d a (val a)) d).map Prod.fst).Nodup := by
  intro order
  induction order with
  | nil => intro d h; exact h
  | cons a order ih =>
    intro d h
    simp only [List.foldl_cons]
    exact ih _ (upsert_keys_nodup d a (val a) h)

/-- The coordinator is the fold of dict insertions keyed by each task's own
identifier (every record carries its queried identifier). -/
theorem coordinator_eq (parseF : Str → Str → Markup) (envF : Str → Nat → Nat → GetResult)
    (order : List Str) :
    get_offer_info_scrape_parallel parseF envF order
      = order.foldl (fun d a => upsert d a (scrape_one_asin (parseF a) (envF a) a).2) [] := by
  unfold get_offer_info_scrape_parallel
  congr 1
  funext d a
  show upsert d (scrape_one_asin (parseF a) (envF a) a).1
      (scrape_one_asin (parseF a) (envF a) a).2
    = upsert d a (scrape_one_asin (parseF a) (envF a) a).2
  rw [scrape_one_asin_fst]

/-- Claim C8 (amended): the coordinator's mapping has pairwise-distinct keys
and its key set is exactly the set of submitted identifiers — one entry per
distinct identifier, regardless of the completion order; when the submitted
identifiers are pairwise distinct, the mapping has exactly N entries. -/
theorem claim_C8 (parseF : Str → Str → Markup) (envF : Str → Nat → Nat → GetResult)
    (asins order : List Str) (hperm : order.Perm asins) :
    ((get_offer_info_scrape_parallel parseF envF order).map Prod.fst).Perm asins.dedup
    ∧ (asins.Nodup →
        (get_offer_info_scrape_parallel parseF envF order).length = asins.length) := by
  rw [coordinator_eq parseF envF order]
  have hnodup :
      ((order.foldl
          (fun d a => upsert d a (scrape_one_asin (parseF a) (envF a) a).2) []).map
        Prod.fst).Nodup :=
    foldl_upsert_nodup _ order [] (by simp)
  have hmem : ∀ b,
      b ∈ ((order.foldl
          (fun d a => upsert d a (scrape_one_asin (parseF a) (envF a) a).2) []).map
        Prod.fst) ↔ b ∈ asins := by
    intro b
    rw [foldl_upsert_mem]
    simp [hperm.mem_iff]
  have hperm2 :
      ((order.foldl
          (fun d a => upsert d a (scrape_one_asin (parseF a) (envF a) a).2) []).map
        Prod.fst).Perm asins.dedup :=
    (List.perm_ext_iff_of_nodup hnodup (List.nodup_dedup asins)).mpr
      (fun b => by rw [hmem b, List.mem_dedup])
  refine ⟨hperm2, fun hnd => ?_⟩
  have hl :
      (order.foldl
          (fun d a => upsert d a (scrape_one_asin (parseF a) (envF a) a).2) []).length
        = ((order.foldl
            (fun d a => upsert d a (scrape_one_asin (parseF a) (envF a) a).2) []).map
          Prod.fst).length :=
    (List.length_map _ _).symm
  rw [hl, hperm2.length_eq, hnd.dedup]





/-- Counterexample to C8 as stated: a batch of two valid identifiers that
happen to coincide yields a mapping with one entry, not two. -/
theorem claim_C8_counterexample :
    is_valid_asin asinA = true
    ∧ (get_offer_info_scrape_parallel cexMarkupF cexEnvF [asinA, asinA]).length
        ≠ ([asinA, asinA] : List Str).length := by decide

/-- Witness for C8 (amended) at a concrete two-identifier batch collected in
reversed completion order. -/
theorem claim_C8_witness :
    ((get_offer_info_scrape_parallel cexMarkupF cexEnvF [asinB, asinA]).map
      Prod.fst).Perm ([asinA, asinB] : List Str).dedup :=
  (claim_C8 cexMarkupF cexEnvF [asinA, asinB] [asinB, asinA] (by decide)).1


/-- Extending a no-double-space string with a character that does not create
an adjacent space pair. -/
theorem noDouble_cons (x : Char) (t : Str) (ht : noDoubleSpaceB t = true)
    (hx : x = ' ' → headIsSpace t = false) : noDoubleSpaceB (x :: t) = true := by
  cases t with
  | nil => rfl
  | cons y ys =>
    simp only [noDoubleSpaceB, Bool.and_eq_true] at ht ⊢
    refine ⟨?_, ht⟩
    by_cases hxs : x = ' '
    · have hy := hx hxs
      simp only [headIsSpace] at hy
      simp [hxs, hy]
    · simp [hxs]

/-- The tail of a no-double-space string. -/
theorem noDouble_tail (x : Char) (t : Str) (h : noDoubleSpaceB (x :: t) = true) :
    noDoubleSpaceB t = true := by
  cases t with
  | nil => rfl
  | cons y ys =>
    simp only [noDoubleSpaceB, Bool.and_eq_true] at h
    exact h.2

/-- A left factor of a no-double-space string has no double space. -/
theorem noDouble_append_left : ∀ (l t : Str),
    noDoubleSpaceB (l ++ t) = true → noDoubleSpaceB l = true := by
  intro l
  induction l with
  | nil => intro t _; rfl
  | cons x l2 ih =>
    intro t h
    cases l2 with
    | nil => rfl
    | cons y l3 =>
      simp only [List.cons_append, noDoubleSpaceB, Bool.and_eq_true] at h ⊢
      exact ⟨h.1, by
        have := ih t (by simpa [List.cons_append] using h.2)
        simpa [noDoubleSpaceB] using this⟩

/-- A right factor of a no-double-space string has no double space. -/
theorem noDouble_append_right : ∀ (t l : Str),
    noDoubleSpaceB (t ++ l) = true → noDoubleSpaceB l = true := by
  intro t
  induction t with
  | nil => intro l h; exact h
  | cons x t2 ih =>
    intro l h
    exact ih l (noDouble_tail x (t2 ++ l) (by simpa [List.cons_append] using h))

/-- `spacesOkB` restricts along list inclusion. -/
theorem spacesOk_subset (l l' : Str) (hsub : l' ⊆ l) (h : spacesOkB l = true) :
    spacesOkB l' = true := by
  simp only [spacesOkB, List.all_eq_true] at *
  exact fun c hc => h c (hsub hc)

/-- `rstripWs` produces a left factor of its input. -/
theorem rstrip_factor : ∀ l : Str, ∃ t, l = rstripWs l ++ t := by
  intro l
  induction l with
  | nil => exact ⟨[], rfl⟩
  | cons c cs ih =>
    simp only [rstripWs]
    split_ifs with h
    · exact ⟨c :: cs, rfl⟩
    · obtain ⟨t, ht⟩ := ih
      exact ⟨t, by rw [List.cons_append, ← ht]⟩

/-- `pyStrip` selects characters of its input. -/
theorem pyStrip_subset (l : Str) : pyStrip l ⊆ l := by
  intro x hx
  unfold pyStrip at hx
  obtain ⟨t, ht⟩ := rstrip_factor (List.dropWhile isSpaceChar l)
  have hx2 : x ∈ List.dropWhile isSpaceChar l := by
    rw [ht]
    exact List.mem_append_left t hx
  exact List.dropWhile_subset isSpaceChar hx2

/-- `pyStrip` preserves absence of double spaces. -/
theorem noDouble_pyStrip (l : Str) (h : noDoubleSpaceB l = true) :
    noDoubleSpaceB (pyStrip l) = true := by
  unfold pyStrip
  have h1 : noDoubleSpaceB (List.dropWhile isSpaceChar l) = true := by
    refine noDouble_append_right (List.takeWhile isSpaceChar l) _ ?_
    rw [List.takeWhile_append_dropWhile]
    exact h
  obtain ⟨t, ht⟩ := rstrip_factor (List.dropWhile isSpaceChar l)
  refine noDouble_append_left _ t ?_
  rw [← ht]
  exact h1

/-- The output of `dropWhile isSpaceChar` never starts with whitespace. -/
theorem headNotSpace_dropWhile (l : Str) :
    headNotSpace (List.dropWhile isSpaceChar l) = true := by
  induction l with
  | nil => rfl
  | cons c cs ih =>
    by_cases hc : isSpaceChar c = true
    · rw [List.dropWhile_cons_of_pos hc]
      exact ih
    · rw [List.dropWhile_cons_of_neg (by simp [hc])]
      simp [headNotSpace, hc]

/-- `rstripWs` keeps the head, so preserves a non-whitespace start. -/
theorem headNotSpace_rstrip (l : Str) (h : headNotSpace l = true) :
    headNotSpace (rstripWs l) = true := by
  cases l with
  | nil => rfl
  | cons c cs =>
    rcases rstripWs_cons_cases c cs with h2 | h2 <;> rw [h2]
    · rfl
    · exact h

/-- Truncation keeps the head, so preserves a non-whitespace start. -/
theorem headNotSpace_take (n : Nat) (l : Str) (h : headNotSpace l = true) :
    headNotSpace (l.take n) = true := by
  cases l with
  | nil => simp [headNotSpace]
  | cons c cs =>
    cases n with
    | zero => rfl
    | succ k => exact h

/-- Whitespace-run collapsing produces only plain single spaces; its helper
additionally never starts with a space. -/
theorem collapse_props : ∀ s : Str,
    (spacesOkB (collapseWs s) = true ∧ noDoubleSpaceB (collapseWs s) = true)
    ∧ (spacesOkB (skipWsThen s) = true ∧ noDoubleSpaceB (skipWsThen s) = true
        ∧ headIsSpace (skipWsThen s) = false) := by
  intro s
  induction s with
  | nil => exact ⟨⟨rfl, rfl⟩, rfl, rfl, rfl⟩
  | cons c cs ih =>
    obtain ⟨⟨hc1, hc2⟩, hs1, hs2, hs3⟩ := ih
    by_cases hws : isSpaceChar c = true
    · have hcol : collapseWs (c :: cs) = ' ' :: skipWsThen cs := by
        simp [collapseWs, hws]
      have hskp : skipWsThen (c :: cs) = skipWsThen cs := by
        simp [skipWsThen, hws]
      refine ⟨⟨?_, ?_⟩, ?_⟩
      · rw [hcol]
        simp only [spacesOkB, List.all_cons, Bool.and_eq_true]
        exact ⟨by decide, hs1⟩
      · rw [hcol]
        exact noDouble_cons ' ' _ hs2 (fun _ => hs3)
      · rw [hskp]
        exact ⟨hs1, hs2, hs3⟩
    · have hcq : c ≠ ' ' := fun hc => hws (by rw [hc]; decide)
      have hcol : collapseWs (c :: cs) = c :: collapseWs cs := by
        simp [collapseWs, hws]
      have hskp : skipWsThen (c :: cs) = c :: collapseWs cs := by
        simp [skipWsThen, hws]
      have hsp : spacesOkB (c :: collapseWs cs) = true := by
        simp only [spacesOkB, List.all_cons, Bool.and_eq_true]
        refine ⟨?_, hc1⟩
        simp [hws]
      have hnd : noDoubleSpaceB (c :: collapseWs cs) = true :=
        noDouble_cons c _ hc2 (fun hc' => absurd hc' hcq)
      refine ⟨⟨hcol ▸ hsp, hcol ▸ hnd⟩, hskp ▸ hsp, hskp ▸ hnd, ?_⟩
      rw [hskp]
      simp [headIsSpace, hcq]

/-- Every output of `clean` is the sentinel or a non-empty
whitespace-normalized string of at most 80 characters. -/
theorem clean_wsOk (s : Str) : wsOk (clean s) := by
  simp only [clean]
  split_ifs with h1 h2
  · exact Or.inl rfl
  · exact Or.inl rfl
  · right
    have hcp := (collapse_props (normalize_spaces s)).1
    have hsp : spacesOkB (pyStrip (collapseWs (normalize_spaces s))) = true :=
      spacesOk_subset _ _ (pyStrip_subset _) hcp.1
    have hnd : noDoubleSpaceB (pyStrip (collapseWs (normalize_spaces s))) = true :=
      noDouble_pyStrip _ hcp.2
    have hhd : headNotSpace (pyStrip (collapseWs (normalize_spaces s))) = true := by
      unfold pyStrip
      exact headNotSpace_rstrip _ (headNotSpace_dropWhile _)
    refine ⟨?_, ?_, ?_⟩
    · cases hu : pyStrip (collapseWs (normalize_spaces s)) with
      | nil => exact absurd hu h2
      | cons c cs => simp [hu]
    · calc ((pyStrip (collapseWs (normalize_spaces s))).take 80).length
          = min 80 (pyStrip (collapseWs (normalize_spaces s))).length := List.length_take ..
        _ ≤ 80 := Nat.min_le_left ..
    · simp only [wsNormB, Bool.and_eq_true]
      refine ⟨⟨?_, ?_⟩, ?_⟩
      · exact spacesOk_subset _ _ (List.take_subset ..) hsp
      · refine noDouble_append_left _ ((pyStrip (collapseWs (normalize_spaces s))).drop 80) ?_
        rw [List.take_append_drop]
        exact hnd
      · exact headNotSpace_take 80 _ hhd

/-- The merchant-text resolution yields the sentinel or a `clean` output. -/
theorem pick_merchant_text_wsOk (o : Option MerchantRoot) : wsOk (pick_merchant_text o) := by
  cases o with
  | none => exact Or.inl rfl
  | some root =>
    rcases root with ⟨a, sp, rt⟩
    cases a with
    | some t => exact clean_wsOk t
    | none =>
      cases sp with
      | some t => exact clean_wsOk t
      | none => exact clean_wsOk rt

/-- A name accepted by the fallback scan is a `clean` output. -/
theorem find_fallback_wsOk : ∀ (ls : List Str) (n : Str),
    find_fallback ls = some n → wsOk n := by
  intro ls
  induction ls with
  | nil => intro n h; simp [find_fallback] at h
  | cons l ls ih =>
    intro n h
    simp only [find_fallback] at h
    split_ifs at h with hc
    · have : clean l = n := by simpa using h
      exact this ▸ clean_wsOk l
    · exact ih n h

/-- The literal "Amazon" is a well-formed merchant value. -/
theorem wsOk_amazonStr : wsOk amazonStr :=
  Or.inr ⟨by decide, by decide, by decide⟩

/-- `extract_finish` propagates the value discipline of its inputs. -/
theorem extract_finish_wsOk (m : Markup) (v e : Str) (hv : wsOk v) (he : wsOk e) :
    wsOk (extract_finish m v e).1 ∧ wsOk (extract_finish m v e).2 := by
  simp only [extract_finish]
  split_ifs with h1 hs hp h2
  · exact ⟨hv, wsOk_amazonStr⟩
  · exact ⟨hv, wsOk_amazonStr⟩
  · exact ⟨hv, hv⟩
  · exact ⟨Or.inl rfl, Or.inl rfl⟩
  · exact ⟨hv, he⟩

/-- Claim C9: both components of the extracted pair are either the "Sem
Oferta" sentinel or non-empty whitespace-normalized strings (only single
interior spaces, no leading whitespace) of at most 80 characters, and a text
that is empty after normalization always cleans to the sentinel, never to an
empty string. -/
theorem claim_C9 (m : Markup) (s : Str) (h : normalize_spaces s = []) :
    wsOk (extract_sold_shipped_from_dp m).1 ∧ wsOk (extract_sold_shipped_from_dp m).2
    ∧ clean s = semOferta := by
  have hclean : clean s = semOferta := by
    simp only [clean]
    rw [if_pos h]
  have hex : wsOk (extract_sold_shipped_from_dp m).1
      ∧ wsOk (extract_sold_shipped_from_dp m).2 := by
    simp only [extract_sold_shipped_from_dp]
    by_cases h1 : pick_merchant_text m.merchantText ≠ semOferta
    · rw [if_pos h1]
      by_cases h2 : is_amazon_name (pick_merchant_text m.merchantText)
      · rw [if_pos h2]
        exact ⟨wsOk_amazonStr, wsOk_amazonStr⟩
      · rw [if_neg h2]
        refine extract_finish_wsOk m _ _ (pick_merchant_text_wsOk _) ?_
        split_ifs
        · exact pick_merchant_text_wsOk _
        · exact Or.inl rfl
    · rw [if_neg h1]
      cases hf : find_fallback m.sellerLinks with
      | none => exact extract_finish_wsOk m _ _ (Or.inl rfl) (Or.inl rfl)
      | some name =>
        show wsOk (if is_amazon_name name = true then (amazonStr, amazonStr)
            else extract_finish m name semOferta).1
          ∧ wsOk (if is_amazon_name name = true then (amazonStr, amazonStr)
            else extract_finish m name semOferta).2
        by_cases h2 : is_amazon_name name
        · rw [if_pos h2]
          exact ⟨wsOk_amazonStr, wsOk_amazonStr⟩
        · rw [if_neg h2]
          exact extract_finish_wsOk m _ _ (find_fallback_wsOk _ _ hf) (Or.inl rfl)
  exact ⟨hex.1, hex.2, hclean⟩

/-- Witness for C9 at an empty markup and an all-whitespace text. -/
theorem claim_C9_witness :
    wsOk (extract_sold_shipped_from_dp (Markup.mk none none [] [] false)).1
    ∧ wsOk (extract_sold_shipped_from_dp (Markup.mk none none [] [] false)).2
    ∧ clean ("  ".data) = semOferta :=
  claim_C9 (Markup.mk none none [] [] false) ("  ".data) (by decide)
